import Mathlib

/-!
Verification of the JsonFlexDB in-memory store (src/dist/JsonFlexDB.js).

The store keeps an in-memory tree `this.data` mapping string keys to
documents, a family of secondary indexes `this.indexes`, and an optional
schema.  We embed the store state as association lists kept in JavaScript
property order: a JS object is modelled as a `List (String × _)` in property
creation order, and `objKeys` reproduces the `Object.keys` iteration order
(array-index-like keys first, in ascending numeric order, then the remaining
keys in creation order).  JSON values are modelled by the inductive `Value`;
JavaScript numbers are modelled as integers (no claim under study depends on
non-integral or NaN behaviour).  Strict equality `===` and `Array.includes`
(SameValueZero) agree with structural equality on primitives, which is the
fragment the theorems below quantify over; for two composite values JS
compares references, which a pure embedding cannot observe, so theorems
involving composite-to-composite comparisons are avoided.
-/

set_option autoImplicit false

namespace JsonFlexDB

/-- A JSON-compatible JavaScript value, as stored in documents and used in
queries.  Numbers are modelled as integers. -/
inductive Value where
  | vStr (s : String)
  | vNum (n : Int)
  | vBool (b : Bool)
  | vNull
  | vArr (elems : List Value)
  | vObj (fields : List (String × Value))

/-- Result of the JavaScript `typeof` operator on a `Value`.  `null`, arrays
and plain objects all report `"object"`. -/
inductive TypeTag where
  | tString
  | tNumber
  | tBoolean
  | tObject
  deriving DecidableEq, Repr

/-- JavaScript `typeof` on modelled values. -/
def typeOf : Value → TypeTag
  | .vStr _ => .tString
  | .vNum _ => .tNumber
  | .vBool _ => .tBoolean
  | .vNull => .tObject
  | .vArr _ => .tObject
  | .vObj _ => .tObject

/-- JavaScript truthiness of a value: `""`, `0`, `false` and `null` are
falsy, every other modelled value is truthy. -/
def jsTruthy : Value → Bool
  | .vStr s => !s.isEmpty
  | .vNum n => n != 0
  | .vBool b => b
  | .vNull => false
  | .vArr _ => true
  | .vObj _ => true

/-- Truthiness of a possibly-undefined value (`none` models `undefined`). -/
def jsTruthyOpt : Option Value → Bool
  | none => false
  | some v => jsTruthy v

/-- A value is a scalar (primitive) when it is a string, number, boolean or
null — i.e. not an array and not an object. -/
def Value.isScalar : Value → Bool
  | .vStr _ => true
  | .vNum _ => true
  | .vBool _ => true
  | .vNull => true
  | .vArr _ => false
  | .vObj _ => false

mutual

/-- Structural equality of values.  This is the meaning of JavaScript `===`
and of `Array.includes` (SameValueZero) whenever at least one side is a
primitive, which is the only situation the theorems below rely on; on two
composite values JS compares references instead, which a pure embedding
cannot observe. -/
def jsEq : Value → Value → Bool
  | .vStr a, .vStr b => a == b
  | .vNum a, .vNum b => a == b
  | .vBool a, .vBool b => a == b
  | .vNull, .vNull => true
  | .vArr a, .vArr b => jsEqList a b
  | .vObj a, .vObj b => jsEqFields a b
  | _, _ => false

def jsEqList : List Value → List Value → Bool
  | [], [] => true
  | x :: xs, y :: ys => jsEq x y && jsEqList xs ys
  | _, _ => false

def jsEqFields : List (String × Value) → List (String × Value) → Bool
  | [], [] => true
  | (k1, v1) :: xs, (k2, v2) :: ys => k1 == k2 && jsEq v1 v2 && jsEqFields xs ys
  | _, _ => false

end

mutual

/-- String coercion of a value used as a JavaScript property key
(`obj[value]` coerces with `String(value)`): strings stay themselves,
numbers print in decimal, `null` elements of an array render as the empty
string inside the comma join, plain objects render as
`[object Object]`. -/
def valueToKeyString : Value → String
  | .vStr s => s
  | .vNum n => toString n
  | .vBool b => if b then "true" else "false"
  | .vNull => "null"
  | .vArr l => String.intercalate "," (arrElemStrings l)
  | .vObj _ => "[object Object]"

def arrElemStrings : List Value → List String
  | [] => []
  | .vNull :: rest => "" :: arrElemStrings rest
  | v :: rest => valueToKeyString v :: arrElemStrings rest

end

/-- A document: a JS object, i.e. fields in property creation order. -/
abbrev Doc := List (String × Value)

/-- A query: a JS object mapping field names to an expected value; an array
value denotes a set of acceptable values for that field. -/
abbrev Query := List (String × Value)

/-- First-occurrence field lookup, the meaning of `obj[field]`; `none`
models `undefined`. -/
def getField (d : List (String × Value)) (f : String) : Option Value :=
  (d.find? (fun p => p.1 == f)).map (·.2)

/-- Replace the value at a property in place (JS assignment to an existing
property keeps its position) or append the property at the end. -/
def setField : Doc → String → Value → Doc
  | [], k, v => [(k, v)]
  | (k0, v0) :: rest, k, v =>
      if k0 = k then (k, v) :: rest else (k0, v0) :: setField rest k v

/-- `Object.assign(target, updates)`: each field of `updates`, in order, is
written into the target document. -/
def mergeDoc (d : Doc) (updates : Doc) : Doc :=
  updates.foldl (fun acc p => setField acc p.1 p.2) d

/-- The store tree `this.data`: keys to documents, in property creation
order (a plain JS object). -/
abbrev Data := List (String × Doc)

/-- One secondary index: bucket-key (the indexed value coerced to a property
key string) to the list of document keys appended into that bucket. -/
abbrev Buckets := List (String × List String)

/-- `this.indexes`: index name (field name) to its buckets. -/
abbrev Indexes := List (String × Buckets)

/-- First-occurrence lookup in the store tree, the meaning of
`this.data[key]`. -/
def lookupData (data : Data) (k : String) : Option Doc :=
  (data.find? (fun p => p.1 == k)).map (·.2)

/-- The document at a key; keys produced by `objKeys` always have one. -/
def docAt (data : Data) (k : String) : Doc :=
  (lookupData data k).getD []

/-- `this.data[key] = document`: replace in place when the key exists,
append the new property otherwise. -/
def setKey : Data → String → Doc → Data
  | [], k, d => [(k, d)]
  | (k0, d0) :: rest, k, d =>
      if k0 = k then (k, d) :: rest else (k0, d0) :: setKey rest k d

/-- `delete this.data[key]`: drop the property. -/
def eraseKey : Data → String → Data
  | [], _ => []
  | (k0, d0) :: rest, k =>
      if k0 = k then rest else (k0, d0) :: eraseKey rest k

/-- Numeric reading of an all-digit key (used only under
`isArrayIndexKey`, where every character is a digit). -/
def keyNum (s : String) : Nat :=
  s.toList.foldl (fun a c => a * 10 + (c.toNat - 48)) 0

/-- Whether a property key is an array index in the ECMAScript sense: the
canonical decimal form (no sign, no leading zero except `0` itself) of an
integer `0 ≤ n ≤ 2^32 - 2`.  Such keys are enumerated first, in ascending
numeric order, by `Object.keys` and `for..in`. -/
def isArrayIndexKey (s : String) : Bool :=
  match s.toList with
  | [] => false
  | c :: cs =>
      (c :: cs).all Char.isDigit && (c != '0' || cs.isEmpty)
        && keyNum s ≤ 4294967294

/-- Insert a key into a list sorted by `keyNum`. -/
def insertSorted (k : String) : List String → List String
  | [] => [k]
  | x :: xs => if keyNum k ≤ keyNum x then k :: x :: xs else x :: insertSorted k xs

/-- Sort keys by their numeric value (insertion sort). -/
def sortKeys : List String → List String :=
  List.foldr insertSorted []

/-- `Object.keys(this.data)` (and `for..in` enumeration): array-index-like
keys first in ascending numeric order, then the remaining keys in property
creation order. -/
def objKeys (data : Data) : List String :=
  let ks := data.map (·.1)
  sortKeys (ks.filter isArrayIndexKey) ++ ks.filter (fun k => !isArrayIndexKey k)

/-- Value of the longest digit prefix of a character list, if nonempty. -/
def digitsVal (cs : List Char) : Option Nat :=
  let ds := cs.takeWhile Char.isDigit
  if ds.isEmpty then none
  else some (ds.foldl (fun a c => a * 10 + (c.toNat - 48)) 0)

/-- JavaScript `parseInt(s)` restricted to base 10: skip leading
whitespace, read an optional sign, then the longest digit prefix; `none`
models `NaN`.  (The `0x` hexadecimal prefix of `parseInt` is not modelled;
no store key under study uses it.) -/
def parseIntJS (s : String) : Option Int :=
  let cs := s.toList.dropWhile (fun c => c == ' ' || c == '\t' || c == '\n' || c == '\r')
  match cs with
  | '-' :: rest => (digitsVal rest).map (fun n => -(n : Int))
  | '+' :: rest => (digitsVal rest).map (fun n => (n : Int))
  | rest => (digitsVal rest).map (fun n => (n : Int))

/-- One schema entry: `{required, type, validate}`.  The custom predicate
receives the raw property read, so it takes a possibly-undefined value
(`none` models `undefined`); `validate = none` models an absent
predicate. -/
structure FieldSpec where
  req : Bool
  ftype : TypeTag
  validate : Option (Option Value → Bool)

/-- `this.schema`: field name to its specification. -/
abbrev Schema := List (String × FieldSpec)

/-- First-occurrence lookup in the schema, the meaning of
`this.schema[key]`. -/
def getSpec (schema : Schema) (k : String) : Option FieldSpec :=
  (schema.find? (fun p => p.1 == k)).map (·.2)

/-- The in-memory state of one loaded `JsonFlexDB` instance: the store tree
`this.data`, the secondary indexes `this.indexes` and the schema
`this.schema`.  The file path and load flag play no role once the data is
in memory, and saving rewrites the whole tree from `data`, so they are not
part of the state. -/
structure DB where
  data : Data
  indexes : Indexes
  schema : Schema

/-- Truthiness of `this.indexes[queryKey]`: an index object, even empty, is
truthy, so this is presence of the index. -/
def hasIndex (indexes : Indexes) (f : String) : Bool :=
  (indexes.find? (fun p => p.1 == f)).isSome

/-- The list of acceptable values for a query entry:
`Array.isArray(q) ? q : [q]`. -/
def toValues : Value → List Value
  | .vArr l => l
  | v => [v]

/-- `validateDocument` (source lines 409-438): every required schema field
must be present, and every document field that has a schema entry must have
the declared runtime type and pass the custom predicate when one is given.
(JS objects have unique property keys, so an entry's value is its
lookup.) -/
def validateDocument (schema : Schema) (doc : Doc) : Bool :=
  (schema.all fun p => !(p.2.req && (getField doc p.1).isNone))
    && (doc.all fun p =>
          match getSpec schema p.1 with
          | none => true
          | some spec =>
            match getField doc p.1 with
            | some v =>
                typeOf v == spec.ftype
                  && (match spec.validate with
                      | some f => f (some v)
                      | none => true)
            | none => true)

/-- The diagnostic loop inside `insert` (source lines 287-309): walk the
schema entries in order and report the first violation — a required field
that is absent, a present field of the wrong runtime type, or a custom
predicate rejecting the property read (which is `undefined`, i.e. `none`,
when the field is absent).  Returns `none` when the loop falls through
without throwing. -/
def insertCheck (doc : Doc) : Schema → Option String
  | [] => none
  | (k, spec) :: rest =>
    if spec.req && (getField doc k).isNone then
      some ("Validation error: Field " ++ k ++ " is required.")
    else if (match getField doc k with
             | some v => typeOf v != spec.ftype
             | none => false) then
      some ("Validation error: Field " ++ k ++ " must be of the declared type.")
    else if (match spec.validate with
             | some f => !f (getField doc k)
             | none => false) then
      some ("Validation error: Field " ++ k ++ " failed custom validation.")
    else insertCheck doc rest

/-- The query/partial validation loop shared by `find`, `findOne` and
`update` (source lines 149-170, 218-241, 337-358): fields without a schema
entry are skipped; schema'd fields must carry a value of the declared type
and pass the custom predicate. -/
def queryCheck (label : String) (schema : Schema) : Query → Option String
  | [] => none
  | (k, v) :: rest =>
    match getSpec schema k with
    | none => queryCheck label schema rest
    | some spec =>
      if typeOf v != spec.ftype then
        some (label ++ " validation failed: Field " ++ k
          ++ " must be of the declared type.")
      else
        match spec.validate with
        | some f =>
            if !f (some v) then
              some (label ++ " validation failed: Field " ++ k
                ++ " failed custom validation.")
            else queryCheck label schema rest
        | none => queryCheck label schema rest

/-- One query field tested against one document (the body of the inner
loop of `find`/`findOne`, source lines 249-265): when the queried field has
an index, the query value is treated as a set (`Array.isArray ? q : [q]`)
and the document's value must be `includes`-equal to a member; otherwise
the document's value must be strictly equal to the query value.  A missing
field (`undefined`) never matches, since a modelled query value is never
`undefined`. -/
def matchField (indexes : Indexes) (doc : Doc) (qk : String) (qv : Value) : Bool :=
  if hasIndex indexes qk then
    match getField doc qk with
    | some dv => (toValues qv).any (fun w => jsEq dv w)
    | none => false
  else
    match getField doc qk with
    | some dv => jsEq dv qv
    | none => false

/-- A document matches a query when every query field matches (the inner
loop sets `match = false` on any failure). -/
def matchesQuery (indexes : Indexes) (q : Query) (doc : Doc) : Bool :=
  q.all fun p => matchField indexes doc p.1 p.2

/-- The scan at the heart of `find` (source lines 243-272): every key of
the tree, in `Object.keys` order, whose document matches the query. -/
def findMatchKeys (db : DB) (q : Query) : List String :=
  (objKeys db.data).filter fun k => matchesQuery db.indexes q (docAt db.data k)

/-- `find(query)` with the default `returnKeys = true`, the only form used
by `update`, `remove` and the claims: validate the query against the
schema, then scan the whole tree and return the matching keys.  Note that
the secondary indexes are consulted only for their existence (which
switches on set-membership matching); their buckets are never read. -/
def find (db : DB) (q : Query) : Except String (List String) :=
  match queryCheck "Find" db.schema q with
  | some e => .error ("Failed to execute find operation: " ++ e)
  | none => .ok (findMatchKeys db q)

/-- The scan loop of `findOne` (source lines 174-198): first matching
document, early return. -/
def findOneLoop (data : Data) (indexes : Indexes) (q : Query) :
    List String → Option Doc
  | [] => none
  | k :: ks =>
      if matchesQuery indexes q (docAt data k) then some (docAt data k)
      else findOneLoop data indexes q ks

/-- `findOne(query)` (source lines 146-204): validate the query, then
return the first matching document in `Object.keys` order, or `null`
(`none`) when nothing matches. -/
def findOne (db : DB) (q : Query) : Except String (Option Doc) :=
  match queryCheck "FindOne" db.schema q with
  | some e => .error ("Failed to execute findOne operation: " ++ e)
  | none => .ok (findOneLoop db.data db.indexes q (objKeys db.data))

/-- `this.indexes[name][bucketKey].push(key)` with
`this.indexes[name][bucketKey] = ... || []` before it: append the key to
the bucket, creating the bucket at the end when absent. -/
def bucketAppend : Buckets → String → String → Buckets
  | [], bk, k => [(bk, [k])]
  | (bk0, ks) :: rest, bk, k =>
      if bk0 = bk then (bk0, ks ++ [k]) :: rest
      else (bk0, ks) :: bucketAppend rest bk k

/-- The key chosen by `insert` (source line 312):
`document._id || Math.random().toString(36).substring(7)` — the `_id`
property coerced to a key string when it is truthy, otherwise the freshly
generated random string, which we pass in as `genKey` (the entropy source
is an external collaborator). -/
def insertKeyOf (genKey : String) (doc : Doc) : String :=
  match getField doc "_id" with
  | some v => if jsTruthy v then valueToKeyString v else genKey
  | none => genKey

/-- Index maintenance of `insert` (source lines 315-321): every existing
index whose field is present (not `undefined`) in the document gets the new
key appended to the bucket of the document's value. -/
def insertIndexes (indexes : Indexes) (doc : Doc) (key : String) : Indexes :=
  indexes.map fun p =>
    match getField doc p.1 with
    | some v => (p.1, bucketAppend p.2 (valueToKeyString v) key)
    | none => (p.1, p.2)

/-- `insert(document)` (source lines 284-325): when `validateDocument`
rejects, the diagnostic loop re-derives and throws the first violation
(should it fall through — it cannot, see `insertCheck_of_not_valid` — the
JS control flow would continue with the insertion, which the translation
mirrors); otherwise the document is stored under its key, every index is
appended to, the tree is saved and the key returned. -/
def insert (genKey : String) (db : DB) (doc : Doc) : Except String (DB × String) :=
  let go : Except String (DB × String) :=
    let key := insertKeyOf genKey doc
    .ok ({ db with data := setKey db.data key doc,
                   indexes := insertIndexes db.indexes doc key }, key)
  if !validateDocument db.schema doc then
    match insertCheck doc db.schema with
    | some e => .error e
    | none => go
  else go

/-- `Object.assign(this.data[result], updates)` guarded by
`if (this.data[result])` (source lines 362-366): merge the updates into the
document at the key, in place; a missing key is skipped. -/
def assignAt : Data → String → Doc → Data
  | [], _, _ => []
  | (k0, d0) :: rest, k, u =>
      if k0 = k then (k0, mergeDoc d0 u) :: rest
      else (k0, d0) :: assignAt rest k u

/-- The whole merge loop of `update`: each found key, in order, gets the
updates merged into its document. -/
def assignAll (d : Data) (ks : List String) (u : Doc) : Data :=
  ks.foldl (fun acc k => assignAt acc k u) d

/-- `update(query, updates)` (source lines 334-370): validate `updates` as
a partial against the schema, evaluate `find(query)` for the target keys,
merge `updates` into each target in place, save, and return the number of
targets.  The indexes are not touched. -/
def update (db : DB) (q : Query) (u : Doc) : Except String (DB × Nat) :=
  match queryCheck "Update" db.schema u with
  | some e => .error e
  | none =>
    match find db q with
    | .error e => .error e
    | .ok ks =>
        .ok ({ db with data := assignAll db.data ks u }, ks.length)

/-- `remove(query)` (source lines 380-392): evaluate `find(query)`, delete
each returned key from the tree, save, and return the count.  The indexes
are not touched. -/
def remove (db : DB) (q : Query) : Except String (DB × Nat) :=
  match find db q with
  | .error e => .error e
  | .ok ks => .ok ({ db with data := ks.foldl eraseKey db.data }, ks.length)

/-- The backfill scan of `createIndex` (source lines 108-115): every key of
the tree, in enumeration order, whose document carries the field is
appended to the bucket of its value. -/
def buildIndex (data : Data) (fname : String) : Buckets :=
  (objKeys data).foldl
    (fun buckets k =>
      match getField (docAt data k) fname with
      | some v => bucketAppend buckets (valueToKeyString v) k
      | none => buckets)
    []

/-- `createIndex(indexName)` (source lines 102-117): a no-op when the index
exists, otherwise a fresh index backfilled from the current tree. -/
def createIndex (db : DB) (fname : String) : DB :=
  if hasIndex db.indexes fname then db
  else { db with indexes := db.indexes ++ [(fname, buildIndex db.data fname)] }

/-- `getAutoIncrementId()` (source lines 124-136): fold over all keys,
keeping the largest parsed integer that exceeds the running maximum, which
starts at 0; return the maximum plus one. -/
def getAutoIncrementId (db : DB) : Int :=
  ((objKeys db.data).foldl
    (fun maxId k =>
      match parseIntJS k with
      | some id => if id > maxId then id else maxId
      | none => maxId)
    0) + 1

/-- Bucket lookup in one index, the reading the specification ascribes to
the query engine (`this.indexes[f][String(v)] || []`). -/
def bucketGet (buckets : Buckets) (bk : String) : List String :=
  (((buckets.find? (fun p => p.1 == bk)).map (·.2)).getD [])

/-- The buckets of a named index, when it exists. -/
def lookupIndex (indexes : Indexes) (f : String) : Option Buckets :=
  (indexes.find? (fun p => p.1 == f)).map (·.2)

/-- Modelled from the claim under test (which follows spec §4.3 step 1 and
§9): the candidate keys of a query whose fields are all indexed, computed
as the union of the per-field index bucket lookups — a key is a candidate
whenever at least one queried field's bucket for the queried value (or for
some member of the queried set) contains it.  This definition exists only
to be compared against `find`; the source never reads buckets. -/
def claimUnionCandidates (db : DB) (q : Query) : List String :=
  (objKeys db.data).filter fun k =>
    q.any fun p =>
      match lookupIndex db.indexes p.1 with
      | some buckets =>
          (toValues p.2).any fun w =>
            (bucketGet buckets (valueToKeyString w)).contains k
      | none => false

/-- Modelled from the claim under test (which follows spec §4.4): one
greater than the maximum integer obtained by parsing the keys, ignoring
keys that do not parse, and 1 when no key parses.  This definition exists
only to be compared against `getAutoIncrementId`. -/
def claimAutoIncrementId (data : Data) : Int :=
  match (data.map (·.1)).filterMap parseIntJS with
  | [] => 1
  | x :: xs => xs.foldl max x + 1

/-! Concrete store states used by the counterexamples and witnesses. -/

/-- A store with one document whose fields `a = 1`, `b = 3` are both
indexed (the indexes as `createIndex` would have built them). -/
def dbTwoIdx : DB :=
  ⟨[("1", [("a", .vNum 1), ("b", .vNum 3)])],
   [("a", [("1", ["1"])]), ("b", [("3", ["1"])])], []⟩

/-- The two-indexed-field query `{a: 1, b: 2}`. -/
def qTwoIdx : Query := [("a", .vNum 1), ("b", .vNum 2)]

/-- A store with the single document `{_id: "1", category: "A"}`, no
indexes, no schema. -/
def dbCat : DB := ⟨[("1", [("_id", .vStr "1"), ("category", .vStr "A")])], [], []⟩

/-- `dbCat` after `update({category: "A"}, {category: "C"})`. -/
def dbCatUpdated : DB :=
  ⟨[("1", [("_id", .vStr "1"), ("category", .vStr "C")])], [], []⟩

/-- Document `{_id: "2", m: "B"}`, inserted first in the C5 scenario. -/
def docTwo : Doc := [("_id", .vStr "2"), ("m", .vStr "B")]

/-- Document `{_id: "1", m: "B"}`, inserted second in the C5 scenario. -/
def docOne : Doc := [("_id", .vStr "1"), ("m", .vStr "B")]

/-- The store after inserting `docTwo` into the empty store: key "2" was
added first. -/
def dbAfterTwo : DB := ⟨[("2", docTwo)], [], []⟩

/-- The store after inserting `docTwo` and then `docOne`: creation order of
the keys is "2" then "1". -/
def dbAfterTwoOne : DB := ⟨[("2", docTwo), ("1", docOne)], [], []⟩

/-- A store with one document whose non-indexed field `t` holds the scalar
`1`. -/
def dbScalarT : DB := ⟨[("1", [("t", .vNum 1)])], [], []⟩

/-- A store with one document whose non-indexed field `t` holds the array
`[1]` itself. -/
def dbArrT : DB := ⟨[("1", [("t", .vArr [.vNum 1])])], [], []⟩

/-- A store whose only key is `"-5"`, which `parseInt` reads as `-5`. -/
def dbNegKey : DB := ⟨[("-5", [])], [], []⟩

/-- A store whose only key is the empty string (a legal JSON object key,
accepted by `load`). -/
def dbEmptyKey : DB := ⟨[("", [("x", .vNum 1)])], [], []⟩

/-- A document whose `_id` is the empty string — falsy, yet equal to a key
present in `dbEmptyKey`. -/
def docEmptyId : Doc := [("_id", .vStr "")]

/-- `dbEmptyKey` after inserting `docEmptyId` with generated key "gen":
the falsy `_id` is ignored and a second entry appears. -/
def dbEmptyKeyAfter : DB :=
  ⟨[("", [("x", .vNum 1)]), ("gen", docEmptyId)], [], []⟩

/-- `dbCatIdx` after `update({cat: "A"}, {cat: "B"})`: both documents
merged, the index untouched (and now stale). -/
def dbCatIdxUpdated : DB :=
  ⟨[("1", [("_id", .vStr "1"), ("cat", .vStr "B")]),
    ("9", [("_id", .vStr "9"), ("cat", .vStr "B")])],
   [("cat", [("A", ["1", "9"])])], []⟩

/-- `dbCatIdx` after `remove({cat: "A"})`: both documents deleted, the
index untouched (and now dangling). -/
def dbCatIdxRemoved : DB := ⟨[], [("cat", [("A", ["1", "9"])])], []⟩

/-- A store with one document carrying a queried field `cat` and an
unrelated field `s`, for the C3 witness. -/
def dbCatS : DB :=
  ⟨[("1", [("_id", .vStr "1"), ("cat", .vStr "A"), ("s", .vStr "x")])], [], []⟩

/-- `dbCatS` after `update({cat: "A"}, {s: "y"})`: the update does not
touch the queried field, so the document still matches. -/
def dbCatSUpdated : DB :=
  ⟨[("1", [("_id", .vStr "1"), ("cat", .vStr "A"), ("s", .vStr "y")])], [], []⟩

/-- A schema requiring a string field `name`. -/
def schemaNameReq : Schema :=
  [("name", ⟨true, .tString, none⟩)]

/-- A store carrying `schemaNameReq` and one valid document. -/
def dbSchema : DB :=
  ⟨[("1", [("_id", .vStr "1"), ("name", .vStr "N")])], [], schemaNameReq⟩

/-- A store with an index on `cat` and two documents, for the C1 witness:
the document under "1" was present when the index was built, the one under
"9" was appended by a later insert. -/
def dbCatIdx : DB :=
  ⟨[("1", [("_id", .vStr "1"), ("cat", .vStr "A")]),
    ("9", [("_id", .vStr "9"), ("cat", .vStr "A")])],
   [("cat", [("A", ["1", "9"])])], []⟩

/-! Helper lemmas. -/

/-- Against a scalar right-hand side, `jsEq` is propositional equality (and
agrees with JavaScript `===`/SameValueZero, which compares primitives
structurally). -/
theorem jsEq_scalar_iff {dv v : Value} (h : v.isScalar = true) :
    jsEq dv v = true ↔ dv = v := by
  cases v <;> cases dv <;>
    simp_all [jsEq, Value.isScalar]

/-- A scalar query value is its own singleton set of acceptable values. -/
theorem toValues_scalar {v : Value} (h : v.isScalar = true) :
    toValues v = [v] := by
  cases v <;> simp_all [toValues, Value.isScalar]

theorem mem_insertSorted {x k : String} {l : List String} :
    x ∈ insertSorted k l ↔ x = k ∨ x ∈ l := by
  induction l with
  | nil => simp [insertSorted]
  | cons y ys ih =>
      rw [insertSorted]
      by_cases h : keyNum k ≤ keyNum y
      · simp [h]
      · simp only [if_neg h, List.mem_cons, ih]
        tauto

theorem insertSorted_perm (k : String) (l : List String) :
    List.Perm (insertSorted k l) (k :: l) := by
  induction l with
  | nil => simp [insertSorted]
  | cons y ys ih =>
      by_cases h : keyNum k ≤ keyNum y
      · simp [insertSorted, h]
      · simp only [insertSorted, if_neg h]
        exact (ih.cons y).trans (List.Perm.swap k y ys)

theorem sortKeys_perm (l : List String) : List.Perm (sortKeys l) l := by
  induction l with
  | nil => rfl
  | cons x xs ih =>
      exact (insertSorted_perm x (sortKeys xs)).trans (ih.cons x)

theorem mem_sortKeys {x : String} {l : List String} :
    x ∈ sortKeys l ↔ x ∈ l :=
  (sortKeys_perm l).mem_iff

theorem mem_objKeys {data : Data} {k : String} :
    k ∈ objKeys data ↔ k ∈ data.map (·.1) := by
  simp only [objKeys, List.mem_append, mem_sortKeys, List.mem_filter]
  by_cases h : isArrayIndexKey k <;> simp [h]

/-- The keys enumerated by `objKeys` depend only on the key list. -/
theorem objKeys_congr {d₁ d₂ : Data} (h : d₁.map (·.1) = d₂.map (·.1)) :
    objKeys d₁ = objKeys d₂ := by
  simp only [objKeys, h]

theorem objKeys_nodup {data : Data} (h : (data.map (·.1)).Nodup) :
    (objKeys data).Nodup := by
  rw [objKeys, List.nodup_append]
  refine ⟨((sortKeys_perm _).nodup_iff).mpr (h.filter _), h.filter _, ?_⟩
  intro x hx hx'
  rw [mem_sortKeys, List.mem_filter] at hx
  rw [List.mem_filter] at hx'
  simp_all

theorem lookupData_isSome_iff {data : Data} {k : String} :
    (lookupData data k).isSome ↔ k ∈ data.map (·.1) := by
  simp only [lookupData, Option.isSome_map', List.find?_isSome, List.mem_map]
  constructor
  · rintro ⟨p, hp, he⟩
    exact ⟨p, hp, by simpa using he⟩
  · rintro ⟨p, hp, he⟩
    exact ⟨p, hp, by simpa using he⟩

theorem lookup_setKey_self (d : Data) (k : String) (doc : Doc) :
    lookupData (setKey d k doc) k = some doc := by
  induction d with
  | nil => simp [setKey, lookupData]
  | cons p rest ih =>
      obtain ⟨k0, d0⟩ := p
      rw [setKey]
      by_cases h : k0 = k
      · simp [h, lookupData]
      · simpa [lookupData, List.find?, h] using ih

theorem setKey_length_of_mem {d : Data} {k : String} (doc : Doc)
    (h : k ∈ d.map (·.1)) : (setKey d k doc).length = d.length := by
  induction d with
  | nil => simp at h
  | cons p rest ih =>
      obtain ⟨k0, d0⟩ := p
      rw [setKey]
      by_cases hk : k0 = k
      · simp [hk]
      · have : k ∈ rest.map (·.1) := by
          rcases List.mem_cons.mp h with h1 | h1
          · exact absurd h1.symm hk
          · exact h1
        simp [hk, ih this]

theorem assignAt_map_fst (d : Data) (k : String) (u : Doc) :
    (assignAt d k u).map (·.1) = d.map (·.1) := by
  induction d with
  | nil => rfl
  | cons p rest ih =>
      obtain ⟨k0, d0⟩ := p
      rw [assignAt]
      by_cases h : k0 = k <;> simp [h, ih]

theorem lookupData_cons (k0 : String) (d0 : Doc) (t : Data) (k : String) :
    lookupData ((k0, d0) :: t) k = if k0 = k then some d0 else lookupData t k := by
  by_cases h : k0 = k
  · simp [lookupData, List.find?, h]
  · have hb : (k0 == k) = false := by simpa using h
    simp [lookupData, List.find?, hb, h]

theorem lookup_assignAt_self (d : Data) (k : String) (u : Doc) :
    lookupData (assignAt d k u) k = (lookupData d k).map (fun d0 => mergeDoc d0 u) := by
  induction d with
  | nil => simp [assignAt, lookupData]
  | cons p rest ih =>
      obtain ⟨k0, d0⟩ := p
      rw [assignAt]
      by_cases h : k0 = k
      · simp [h, lookupData_cons]
      · simp [h, lookupData_cons, ih]

theorem lookup_assignAt_ne (d : Data) {k k' : String} (u : Doc) (h : k' ≠ k) :
    lookupData (assignAt d k u) k' = lookupData d k' := by
  induction d with
  | nil => simp [assignAt]
  | cons p rest ih =>
      obtain ⟨k0, d0⟩ := p
      rw [assignAt]
      by_cases hk : k0 = k
      · subst hk
        have hk' : ¬ k0 = k' := fun he => h he.symm
        simp [lookupData_cons, hk']
      · by_cases hk0 : k0 = k'
        · subst hk0
          simp [hk, lookupData_cons]
        · simp [hk, lookupData_cons, hk0, ih]

theorem assignAll_map_fst (d : Data) (ks : List String) (u : Doc) :
    (assignAll d ks u).map (·.1) = d.map (·.1) := by
  induction ks generalizing d with
  | nil => rfl
  | cons k rest ih =>
      rw [assignAll, List.foldl_cons]
      exact (ih (assignAt d k u)).trans (assignAt_map_fst d k u)

theorem lookup_assignAll_notMem (d : Data) {ks : List String} (u : Doc)
    {k : String} (h : k ∉ ks) :
    lookupData (assignAll d ks u) k = lookupData d k := by
  induction ks generalizing d with
  | nil => rfl
  | cons k0 rest ih =>
      rw [assignAll, List.foldl_cons]
      have h1 : k ∉ rest := fun hm => h (List.mem_cons_of_mem _ hm)
      have h2 : k ≠ k0 := fun he => h (he ▸ List.mem_cons_self k0 rest)
      exact (ih (assignAt d k0 u) h1).trans (lookup_assignAt_ne d u h2)

theorem lookup_assignAll_mem (d : Data) {ks : List String} (u : Doc)
    (hnd : ks.Nodup) {k : String} (h : k ∈ ks) :
    lookupData (assignAll d ks u) k
      = (lookupData d k).map (fun d0 => mergeDoc d0 u) := by
  induction ks generalizing d with
  | nil => simp at h
  | cons k0 rest ih =>
      rw [assignAll, List.foldl_cons]
      rcases List.mem_cons.mp h with he | hm
      · subst he
        have hnot : k ∉ rest := (List.nodup_cons.mp hnd).1
        rw [show (rest.foldl (fun acc k => assignAt acc k u) (assignAt d k u))
              = assignAll (assignAt d k u) rest u from rfl]
        rw [lookup_assignAll_notMem _ u hnot, lookup_assignAt_self]
      · have hne : k ≠ k0 := by
          rintro rfl
          exact (List.nodup_cons.mp hnd).1 hm
        rw [show (rest.foldl (fun acc k => assignAt acc k u) (assignAt d k0 u))
              = assignAll (assignAt d k0 u) rest u from rfl]
        rw [ih (assignAt d k0 u) (List.nodup_cons.mp hnd).2 hm,
          lookup_assignAt_ne d u hne]

theorem objKeys_perm (data : Data) :
    List.Perm (objKeys data) (data.map (·.1)) := by
  rw [objKeys]
  exact ((sortKeys_perm _).append_right _).trans (List.filter_append_perm _ _)

theorem find_ok_iff {db : DB} {q : Query} {l : List String} :
    find db q = .ok l
      ↔ queryCheck "Find" db.schema q = none ∧ l = findMatchKeys db q := by
  rw [find]
  cases h : queryCheck "Find" db.schema q <;> simp [eq_comm]

theorem mem_findMatchKeys {db : DB} {q : Query} {k : String} :
    k ∈ findMatchKeys db q
      ↔ k ∈ objKeys db.data
          ∧ matchesQuery db.indexes q (docAt db.data k) = true := by
  rw [findMatchKeys, List.mem_filter]

/-- Whether the query-validation loop reports an error does not depend on
the operation label it stamps into the message. -/
theorem queryCheck_none_iff (l₁ l₂ : String) (s : Schema) (q : Query) :
    queryCheck l₁ s q = none ↔ queryCheck l₂ s q = none := by
  induction q with
  | nil => simp [queryCheck]
  | cons p rest ih =>
      obtain ⟨k, v⟩ := p
      rw [queryCheck, queryCheck]
      cases hs : getSpec s k
      · exact ih
      · rename_i spec
        by_cases ht : (typeOf v != spec.ftype) = true
        · simp [ht]
        · rw [Bool.not_eq_true] at ht
          simp only [ht, Bool.false_eq_true, if_false]
          cases hv : spec.validate
          · exact ih
          · rename_i f
            by_cases hf : (!f (some v)) = true
            · simp [hf]
            · rw [Bool.not_eq_true] at hf
              simpa [hf] using ih

theorem findOneLoop_eq (data : Data) (idx : Indexes) (q : Query) (ks : List String) :
    findOneLoop data idx q ks
      = ((ks.filter fun k => matchesQuery idx q (docAt data k)).head?).map
          (docAt data) := by
  induction ks with
  | nil => rfl
  | cons k rest ih =>
      rw [findOneLoop]
      by_cases h : matchesQuery idx q (docAt data k) = true <;>
        simp [h, List.filter_cons, ih]

/-- Once `find` succeeds, `findOne` on the same query succeeds and returns
the document of the first key `find` produced (or `null` when there is
none). -/
theorem findOne_eq_of_find {db : DB} {q : Query} {l : List String}
    (h : find db q = .ok l) :
    findOne db q = .ok ((l.head?).map (docAt db.data)) := by
  obtain ⟨hchk, hl⟩ := find_ok_iff.mp h
  have hchk1 : queryCheck "FindOne" db.schema q = none :=
    (queryCheck_none_iff "Find" "FindOne" db.schema q).mp hchk
  rw [findOne, hchk1, findOneLoop_eq, hl]
  rfl

/-- If the diagnostic loop of `insert` finds nothing to throw, then every
schema entry passes all three of its checks. -/
theorem insertCheck_none_forall {doc : Doc} {schema : Schema}
    (h : insertCheck doc schema = none) :
    ∀ p ∈ schema,
      ¬(p.2.req = true ∧ getField doc p.1 = none)
        ∧ (∀ v, getField doc p.1 = some v → typeOf v = p.2.ftype)
        ∧ (∀ f, p.2.validate = some f → f (getField doc p.1) = true) := by
  induction schema with
  | nil => simp
  | cons p0 rest ih =>
      obtain ⟨k, spec⟩ := p0
      rw [insertCheck] at h
      by_cases c1 : (spec.req && (getField doc k).isNone) = true
      · rw [if_pos c1] at h
        cases h
      · rw [if_neg c1] at h
        by_cases c2 : (match getField doc k with
                       | some v => typeOf v != spec.ftype
                       | none => false) = true
        · rw [if_pos c2] at h
          cases h
        · rw [if_neg c2] at h
          by_cases c3 : (match spec.validate with
                         | some f => !f (getField doc k)
                         | none => false) = true
          · rw [if_pos c3] at h
            cases h
          · rw [if_neg c3] at h
            intro p hp
            rcases List.mem_cons.mp hp with he | hm
            · subst he
              refine ⟨?_, ?_, ?_⟩
              · rintro ⟨hreq, hnone⟩
                have hreq' : spec.req = true := hreq
                have hnone' : getField doc k = none := hnone
                exact c1 (by simp [hreq', hnone'])
              · intro v hv
                rw [hv] at c2
                simpa using c2
              · intro f hf
                rw [hf] at c3
                simpa using c3
            · exact ih h p hm

theorem getField_isSome_of_mem {d : Doc} {p : String × Value} (h : p ∈ d) :
    (getField d p.1).isSome := by
  rw [getField, Option.isSome_map', List.find?_isSome]
  exact ⟨p, h, by simp⟩

theorem getSpec_mem {schema : Schema} {k : String} {spec : FieldSpec}
    (h : getSpec schema k = some spec) : (k, spec) ∈ schema := by
  rw [getSpec] at h
  rcases Option.map_eq_some'.mp h with ⟨q, hq, he⟩
  have hk : q.1 = k := by simpa using List.find?_some hq
  have := List.mem_of_find?_eq_some hq
  rwa [show q = (k, spec) from Prod.ext hk he] at this

/-- If the diagnostic loop of `insert` falls through, `validateDocument`
would have accepted — so the loop throws whenever `validateDocument`
rejects. -/
theorem validateDocument_of_insertCheck_none {schema : Schema} {doc : Doc}
    (h : insertCheck doc schema = none) :
    validateDocument schema doc = true := by
  have H := insertCheck_none_forall h
  rw [validateDocument, Bool.and_eq_true]
  constructor
  · rw [List.all_eq_true]
    intro p hp
    have h1 := (H p hp).1
    cases hg : getField doc p.1 <;> simp_all
  · rw [List.all_eq_true]
    intro p hp
    cases hs : getSpec schema p.1
    · simp
    · rename_i spec
      have hmem := getSpec_mem hs
      have h2 := (H (p.1, spec) hmem).2.1
      have h3 := (H (p.1, spec) hmem).2.2
      rcases Option.isSome_iff_exists.mp (getField_isSome_of_mem hp) with ⟨v0, hv0⟩
      simp only [hv0] at h2 h3 ⊢
      have htype : typeOf v0 = spec.ftype := h2 v0 rfl
      cases hv : spec.validate
      · simp [htype]
      · rename_i f
        have := h3 f hv
        simp [htype, this]

/-- The fold of `getAutoIncrementId` computes the maximum of 0 and all
parsed keys. -/
theorem foldl_max_parse (ks : List String) (a : Int) :
    ks.foldl (fun m k =>
        match parseIntJS k with
        | some id => if id > m then id else m
        | none => m) a
      = (ks.filterMap parseIntJS).foldl max a := by
  induction ks generalizing a with
  | nil => rfl
  | cons k rest ih =>
      rw [List.foldl_cons, List.filterMap_cons]
      cases h : parseIntJS k
      · simp only [h]
        exact ih a
      · rename_i id
        simp only [h, List.foldl_cons]
        rw [ih]
        congr 1
        by_cases hc : id > a
        · simp [hc, max_eq_right (le_of_lt hc)]
        · simp [hc, max_eq_left (le_of_not_lt hc)]

/-- A single indexed field queried with a scalar matches a document exactly
when the document holds that very value at the field. -/
theorem matchField_indexed_scalar {idx : Indexes} {d : Doc} {F : String}
    {v : Value} (hidx : hasIndex idx F = true) (hscal : v.isScalar = true) :
    matchField idx d F v = true ↔ getField d F = some v := by
  rw [matchField, if_pos hidx, toValues_scalar hscal]
  cases hg : getField d F
  · simp
  · rename_i dv
    simp [jsEq_scalar_iff hscal]

/-! The claims. -/

/-- C1: for every field F on which an index has been created and every
scalar value v, `find {F: v}` returns exactly the set of keys of the
documents currently in the store tree whose field F equals v.  The claim
holds regardless of whether each such document was inserted before or
after `createIndex`, because the theorem quantifies over every store state
in which the index exists: `find` scans the whole tree and consults the
index only for its existence, never reading its (possibly stale)
buckets. -/
theorem c1_indexed_find_exact (db : DB) (F : String) (v : Value)
    (l : List String) (hidx : hasIndex db.indexes F = true)
    (hscal : v.isScalar = true) (hok : find db [(F, v)] = .ok l)
    (k : String) :
    k ∈ l ↔ ∃ d, lookupData db.data k = some d ∧ getField d F = some v := by
  obtain ⟨hchk, hl⟩ := find_ok_iff.mp hok
  subst hl
  rw [mem_findMatchKeys, mem_objKeys, ← lookupData_isSome_iff]
  constructor
  · rintro ⟨hsome, hmatch⟩
    rcases Option.isSome_iff_exists.mp hsome with ⟨d, hd⟩
    have hdoc : docAt db.data k = d := by rw [docAt, hd]; rfl
    rw [hdoc, matchesQuery] at hmatch
    simp only [List.all_cons, List.all_nil, Bool.and_true] at hmatch
    exact ⟨d, hd, (matchField_indexed_scalar hidx hscal).mp hmatch⟩
  · rintro ⟨d, hd, hf⟩
    have hdoc : docAt db.data k = d := by rw [docAt, hd]; rfl
    refine ⟨by rw [hd]; rfl, ?_⟩
    rw [hdoc, matchesQuery]
    simp only [List.all_cons, List.all_nil, Bool.and_true]
    exact (matchField_indexed_scalar hidx hscal).mpr hf

/-- Witness for C1: in `dbCatIdx` the index on `cat` was built when only
the document under "1" existed, and the document under "9" was appended
later; `find {cat: "A"}` nevertheless lists both, and the theorem recovers
the stored document under "9". -/
theorem c1_witness :
    ∃ d, lookupData dbCatIdx.data "9" = some d
      ∧ getField d "cat" = some (.vStr "A") :=
  (c1_indexed_find_exact dbCatIdx "cat" (.vStr "A") ["1", "9"]
    (by rfl) (by rfl) (by rfl) "9").mp (by simp)

/-- C2 counterexample: in `dbTwoIdx` both queried fields of `{a: 1, b: 2}`
are indexed and the claimed union of per-field bucket lookups contains the
key "1" (its a-bucket hit), but `find` — which demands that every queried
field match — returns no candidate at all. -/
theorem c2_counterexample :
    find dbTwoIdx qTwoIdx = .ok []
      ∧ claimUnionCandidates dbTwoIdx qTwoIdx = ["1"]
      ∧ find dbTwoIdx qTwoIdx ≠ .ok (claimUnionCandidates dbTwoIdx qTwoIdx) := by
  refine ⟨rfl, rfl, ?_⟩
  intro h
  rw [show find dbTwoIdx qTwoIdx = .ok [] from rfl,
    show claimUnionCandidates dbTwoIdx qTwoIdx = ["1"] from rfl] at h
  simp at h

/-- C2 amended: when every queried field has a created index, a key is a
candidate (and a result) exactly when its document satisfies EVERY queried
field — the document's value must be `includes`-equal to the queried
scalar or to some member of the queried set — i.e. intersection semantics
computed by a full scan; the per-field index buckets are never read. -/
theorem c2_amended_intersection (db : DB) (q : Query) (l : List String)
    (hidx : ∀ p ∈ q, hasIndex db.indexes p.1 = true)
    (hok : find db q = .ok l) (k : String) :
    k ∈ l
      ↔ (lookupData db.data k).isSome
          ∧ ∀ p ∈ q, ∃ dv, getField (docAt db.data k) p.1 = some dv
              ∧ (toValues p.2).any (fun w => jsEq dv w) = true := by
  obtain ⟨hchk, hl⟩ := find_ok_iff.mp hok
  subst hl
  rw [mem_findMatchKeys, mem_objKeys, ← lookupData_isSome_iff]
  refine and_congr_right fun _ => ?_
  rw [matchesQuery, List.all_eq_true]
  constructor
  · intro H p hp
    have hm := H p hp
    rw [matchField, if_pos (hidx p hp)] at hm
    cases hg : getField (docAt db.data k) p.1
    · rw [hg] at hm
      cases hm
    · rename_i dv
      rw [hg] at hm
      exact ⟨dv, rfl, hm⟩
  · intro H p hp
    rcases H p hp with ⟨dv, hdv, hany⟩
    rw [matchField, if_pos (hidx p hp), hdv]
    exact hany

/-- Witness for C2's amended statement: querying `dbTwoIdx` with
`{a: 1, b: 3}` (both fields indexed, both satisfied) returns "1", and the
characterization recovers both field values. -/
theorem c2_witness :
    (lookupData dbTwoIdx.data "1").isSome
      ∧ ∀ p ∈ [(("a" : String), Value.vNum 1), (("b" : String), Value.vNum 3)],
          ∃ dv, getField (docAt dbTwoIdx.data "1") p.1 = some dv
            ∧ (toValues p.2).any (fun w => jsEq dv w) = true :=
  (c2_amended_intersection dbTwoIdx [("a", .vNum 1), ("b", .vNum 3)] ["1"]
    (by intro p hp
        simp only [List.mem_cons, List.not_mem_nil, or_false] at hp
        rcases hp with h | h <;> subst h <;> rfl)
    (by rfl) "1").mp (by simp)

/-- C4: a document that fails the schema check (a required field missing,
a present field of the wrong runtime type, or a failing custom predicate —
exactly when `validateDocument` rejects) makes `insert` throw a validation
error.  In the code the throw happens before `this.data[key] = document`
and before `save()`, which the embedding mirrors by returning the error
with no successor state: the store tree is exactly as before the call and
nothing is persisted. -/
theorem c4_insert_validation_aborts (g : String) (db : DB) (doc : Doc)
    (h : validateDocument db.schema doc = false) :
    ∃ e, insert g db doc = .error e := by
  rw [insert, h]
  simp only [Bool.not_false, if_true]
  cases hc : insertCheck doc db.schema
  · exact absurd (validateDocument_of_insertCheck_none hc) (by rw [h]; simp)
  · rename_i e
    exact ⟨e, rfl⟩

/-- Witness for C4: inserting a document without the required `name` field
into the schema-carrying store throws. -/
theorem c4_witness :
    ∃ e, insert "g" dbSchema [("x", .vNum 1)] = .error e :=
  c4_insert_validation_aborts "g" dbSchema [("x", .vNum 1)] (by rfl)

/-- C7 counterexample: for the store whose only key is "-5", the claim
("one greater than the maximum parsed integer, ignoring keys that do not
parse") predicts -4, but `getAutoIncrementId` returns 1 because its
running maximum starts at 0 and only strictly larger parsed values replace
it. -/
theorem c7_counterexample :
    getAutoIncrementId dbNegKey = 1
      ∧ claimAutoIncrementId dbNegKey.data = -4
      ∧ getAutoIncrementId dbNegKey ≠ claimAutoIncrementId dbNegKey.data := by
  refine ⟨by rfl, by rfl, ?_⟩
  rw [show getAutoIncrementId dbNegKey = 1 from rfl,
    show claimAutoIncrementId dbNegKey.data = -4 from rfl]
  decide

/-- C7 amended: `getAutoIncrementId` returns one greater than the maximum
of 0 and all integers obtained by parsing the tree's keys (keys that do not
parse are ignored) — so it returns 1 both when no key parses and when every
parsed key is non-positive, rather than one greater than a negative
maximum. -/
theorem c7_amended_auto_increment (db : DB) :
    getAutoIncrementId db
      = ((db.data.map (·.1)).filterMap parseIntJS).foldl max 0 + 1 := by
  letI : RightCommutative (fun (m : Int) (i : Int) => max m i) :=
    ⟨fun b a₁ a₂ => by rw [max_assoc, max_comm a₁ a₂, ← max_assoc]⟩
  rw [getAutoIncrementId, foldl_max_parse]
  congr 1
  exact List.Perm.foldl_eq ((objKeys_perm db.data).filterMap parseIntJS) 0

/-- C3 counterexample: in `dbCat`, `update({category: "A"},
{category: "C"})` matches one document and reports count 1, but `findOne`
with the same query afterwards returns `null` — not the pre-update
document overridden by the updates — because the update changed the very
field the query selects on. -/
theorem c3_counterexample :
    update dbCat [("category", .vStr "A")] [("category", .vStr "C")]
        = .ok (dbCatUpdated, 1)
      ∧ findOne dbCatUpdated [("category", .vStr "A")] = .ok none
      ∧ (Except.ok none : Except String (Option Doc))
          ≠ .ok (some (mergeDoc [("_id", .vStr "1"), ("category", .vStr "A")]
              [("category", .vStr "C")])) := by
  refine ⟨rfl, rfl, ?_⟩
  intro h
  injection h with h1
  cases h1

/-- C3 amended: if `update(query, updates)` matches at least one document
AND every matched document still matches the query after the merge (for
instance because `updates` does not override a queried field with a
non-matching value), then `findOne` on the same query afterwards returns
the first pre-update matched document overridden by the fields of
`updates`, with all other fields unchanged, and `update` returns the
number of matched targets. -/
theorem c3_amended_update_then_findOne (db : DB) (q : Query) (u : Doc)
    (db' : DB) (n : Nat) (k : String) (ks : List String) (d : Doc)
    (hnd : (db.data.map (·.1)).Nodup)
    (hupd : update db q u = .ok (db', n))
    (hfind : find db q = .ok (k :: ks))
    (hd : lookupData db.data k = some d)
    (hstill : ∀ key ∈ k :: ks,
        matchesQuery db.indexes q (mergeDoc (docAt db.data key) u) = true) :
    n = (k :: ks).length ∧ findOne db' q = .ok (some (mergeDoc d u)) := by
  rw [update, hfind] at hupd
  cases hcu : queryCheck "Update" db.schema u
  case some => rw [hcu] at hupd; cases hupd
  case none => ?_
  rw [hcu] at hupd
  injection hupd with h1
  injection h1 with hdb hn
  subst hn
  subst hdb
  refine ⟨rfl, ?_⟩
  obtain ⟨hchk, hl⟩ := find_ok_iff.mp hfind
  have hchk1 : queryCheck "FindOne" db.schema q = none :=
    (queryCheck_none_iff "Find" "FindOne" db.schema q).mp hchk
  have hknd : (k :: ks).Nodup := by
    rw [hl]
    exact (objKeys_nodup hnd).filter _
  have hobj : objKeys (assignAll db.data (k :: ks) u) = objKeys db.data :=
    objKeys_congr (assignAll_map_fst db.data (k :: ks) u)
  rw [findOne]
  dsimp only
  rw [hchk1, findOneLoop_eq, hobj]
  have hfeq : (objKeys db.data).filter
        (fun x => matchesQuery db.indexes q
          (docAt (assignAll db.data (k :: ks) u) x))
      = (objKeys db.data).filter
        (fun x => matchesQuery db.indexes q (docAt db.data x)) := by
    apply List.filter_congr
    intro x hx
    by_cases hxR : x ∈ k :: ks
    · have hsome : (lookupData db.data x).isSome :=
        lookupData_isSome_iff.mpr (mem_objKeys.mp hx)
      rcases Option.isSome_iff_exists.mp hsome with ⟨d0, hd0⟩
      have hla : lookupData (assignAll db.data (k :: ks) u) x
          = some (mergeDoc d0 u) := by
        rw [lookup_assignAll_mem db.data u hknd hxR, hd0]
        rfl
      have hda : docAt (assignAll db.data (k :: ks) u) x = mergeDoc d0 u := by
        rw [docAt, hla]; rfl
      have hdb0 : docAt db.data x = d0 := by rw [docAt, hd0]; rfl
      rw [hda, hdb0]
      have h1 := hstill x hxR
      rw [hdb0] at h1
      rw [h1]
      have h2 : x ∈ findMatchKeys db q := by rw [← hl]; exact hxR
      have h3 := (mem_findMatchKeys.mp h2).2
      rw [hdb0] at h3
      rw [h3]
    · have hla : lookupData (assignAll db.data (k :: ks) u) x
          = lookupData db.data x :=
        lookup_assignAll_notMem db.data u hxR
      rw [docAt, docAt, hla]
  rw [hfeq,
    show (objKeys db.data).filter
        (fun x => matchesQuery db.indexes q (docAt db.data x))
      = findMatchKeys db q from rfl, ← hl]
  have hk' : lookupData (assignAll db.data (k :: ks) u) k
      = some (mergeDoc d u) := by
    rw [lookup_assignAll_mem db.data u hknd (List.mem_cons_self k ks), hd]
    rfl
  simp [docAt, hk']

/-- Witness for C3's amended statement: updating the non-queried field `s`
leaves the document matching `{cat: "A"}`, and `findOne` then returns the
merged document. -/
theorem c3_witness :
    (1 : Nat) = (["1"] : List String).length
      ∧ findOne dbCatSUpdated [("cat", .vStr "A")]
          = .ok (some (mergeDoc
              [("_id", .vStr "1"), ("cat", .vStr "A"), ("s", .vStr "x")]
              [("s", .vStr "y")])) :=
  c3_amended_update_then_findOne dbCatS [("cat", .vStr "A")] [("s", .vStr "y")]
    dbCatSUpdated 1 "1" []
    [("_id", .vStr "1"), ("cat", .vStr "A"), ("s", .vStr "x")]
    (by simp [dbCatS]) (by rfl) (by rfl) (by rfl)
    (by intro key hkey
        simp only [List.mem_singleton] at hkey
        subst hkey
        rfl)

/-- C5 counterexample: inserting `{_id: "2", m: "B"}` and then
`{_id: "1", m: "B"}` puts the keys into the in-memory mapping in the order
"2", "1"; yet `findOne {m: "B"}` returns the SECOND-inserted document,
because `Object.keys` enumerates array-index-like keys in ascending
numeric order, not insertion order. -/
theorem c5_counterexample :
    insert "r1" (⟨[], [], []⟩ : DB) docTwo = .ok (dbAfterTwo, "2")
      ∧ insert "r2" dbAfterTwo docOne = .ok (dbAfterTwoOne, "1")
      ∧ findOne dbAfterTwoOne [("m", .vStr "B")] = .ok (some docOne)
      ∧ (Except.ok (some docOne) : Except String (Option Doc))
          ≠ .ok (some docTwo) := by
  refine ⟨rfl, rfl, rfl, ?_⟩
  intro h
  injection h with h1
  injection h1 with h2
  simp [docOne, docTwo] at h2

/-- C5 amended: `find` lists its results — and `findOne` picks its first
match, returning `null` when there is none — in `Object.keys` iteration
order over the store tree: array-index-like keys first in ascending
numeric order, then the remaining keys in the order they were added.
Insertion order alone decides only among non-array-index keys. -/
theorem c5_amended_iteration_order (db : DB) (q : Query) (l : List String)
    (hok : find db q = .ok l) :
    l = (objKeys db.data).filter
        (fun k => matchesQuery db.indexes q (docAt db.data k))
      ∧ findOne db q = .ok ((l.head?).map (docAt db.data)) :=
  ⟨(find_ok_iff.mp hok).2, findOne_eq_of_find hok⟩

/-- Witness for C5's amended statement on the concrete two-document
store. -/
theorem c5_witness :
    (["1", "2"] : List String)
        = (objKeys dbAfterTwoOne.data).filter
            (fun k => matchesQuery dbAfterTwoOne.indexes [("m", .vStr "B")]
              (docAt dbAfterTwoOne.data k))
      ∧ findOne dbAfterTwoOne [("m", .vStr "B")]
          = .ok (((["1", "2"] : List String).head?).map (docAt dbAfterTwoOne.data)) :=
  c5_amended_iteration_order dbAfterTwoOne [("m", .vStr "B")] ["1", "2"] (by rfl)

/-- C6 counterexample: with no index on `t`, the query `{t: [1]}` does NOT
match the document whose `t` is the scalar `1`, although `1` is a member
of the queried array — the non-indexed branch compares with strict
equality against the array itself, so `find` returns nothing instead of
the claimed `["1"]`. -/
theorem c6_counterexample :
    (Value.vNum 1) ∈ toValues (.vArr [.vNum 1])
      ∧ getField (docAt dbScalarT.data "1") "t" = some (.vNum 1)
      ∧ hasIndex dbScalarT.indexes "t" = false
      ∧ find dbScalarT [("t", .vArr [.vNum 1])] = .ok []
      ∧ (Except.ok [] : Except String (List String)) ≠ .ok ["1"] := by
  refine ⟨by simp [toValues], rfl, rfl, rfl, by simp⟩

/-- C6 amended: for a query mapping a NON-indexed field to an array,
matching tests strict equality of the document's value against the array
itself, so no document whose value at that field is a scalar is ever
returned — set membership applies only to indexed fields. -/
theorem c6_amended_strict_equality (db : DB) (f : String) (vs : List Value)
    (l : List String) (hni : hasIndex db.indexes f = false)
    (hok : find db [(f, .vArr vs)] = .ok l) (k : String) (hk : k ∈ l) :
    ∃ dv, getField (docAt db.data k) f = some dv ∧ dv.isScalar = false := by
  obtain ⟨hchk, hl⟩ := find_ok_iff.mp hok
  subst hl
  rcases mem_findMatchKeys.mp hk with ⟨_, hmatch⟩
  rw [matchesQuery] at hmatch
  simp only [List.all_cons, List.all_nil, Bool.and_true] at hmatch
  rw [matchField, if_neg (by simp [hni])] at hmatch
  cases hg : getField (docAt db.data k) f
  · rw [hg] at hmatch
    cases hmatch
  · rename_i dv
    rw [hg] at hmatch
    refine ⟨dv, rfl, ?_⟩
    cases dv <;> simp_all [jsEq, Value.isScalar]

/-- Witness for C6's amended statement: the only match of `{t: [1]}` in
`dbArrT` is the document whose `t` is the array itself — not a scalar. -/
theorem c6_witness :
    ∃ dv, getField (docAt dbArrT.data "1") "t" = some dv
      ∧ dv.isScalar = false :=
  c6_amended_strict_equality dbArrT "t" [.vNum 1] ["1"] (by rfl) (by rfl)
    "1" (by simp)

/-- C8: neither `update` nor `remove` touches `this.indexes` — the index
structure after either call is exactly the one before it, so among the
store's operations only `insert` (which appends) and `createIndex` (which
adds a backfilled index) ever modify the indexes. -/
theorem c8_update_remove_index_frame (db : DB) (q : Query) (u : Doc)
    (db₁ db₂ : DB) (n m : Nat) :
    (update db q u = .ok (db₁, n) → db₁.indexes = db.indexes)
      ∧ (remove db q = .ok (db₂, m) → db₂.indexes = db.indexes) := by
  constructor
  · intro h
    rw [update] at h
    cases hc : queryCheck "Update" db.schema u <;> rw [hc] at h
    · cases hf : find db q <;> rw [hf] at h
      · cases h
      · injection h with h1
        injection h1 with h2 h3
        rw [← h2]
    · cases h
  · intro h
    rw [remove] at h
    cases hf : find db q <;> rw [hf] at h
    · cases h
    · injection h with h1
      injection h1 with h2 h3
      rw [← h2]

/-- Witness for C8: updating `{cat: "A"}` to `{cat: "B"}` and removing
`{cat: "A"}` on the indexed store both leave the (now stale) index bucket
`cat/"A" -> ["1","9"]` in place. -/
theorem c8_witness :
    dbCatIdxUpdated.indexes = dbCatIdx.indexes
      ∧ dbCatIdxRemoved.indexes = dbCatIdx.indexes :=
  ⟨(c8_update_remove_index_frame dbCatIdx [("cat", .vStr "A")]
      [("cat", .vStr "B")] dbCatIdxUpdated dbCatIdxRemoved 2 2).1 (by rfl),
   (c8_update_remove_index_frame dbCatIdx [("cat", .vStr "A")]
      [("cat", .vStr "B")] dbCatIdxUpdated dbCatIdxRemoved 2 2).2 (by rfl)⟩

/-- C9 counterexample: the document `{_id: ""}` has an `_id` equal to a
key already present in `dbEmptyKey` (the empty-string key, a legal JSON
key), yet because `""` is falsy, `document._id || random` discards it:
insert stores the document under the generated key, a second entry
appears, and the key count grows from 1 to 2. -/
theorem c9_counterexample :
    insert "gen" dbEmptyKey docEmptyId = .ok (dbEmptyKeyAfter, "gen")
      ∧ dbEmptyKey.data.length = 1
      ∧ dbEmptyKeyAfter.data.length = 2
      ∧ ("gen" : String) ≠ "" := by
  refine ⟨rfl, rfl, rfl, by decide⟩

/-- C9 amended: for a document whose `_id` is TRUTHY and coerces to a key
already present in the tree (and which passes the schema check), `insert`
raises no error, creates no second entry — it replaces the document stored
under that key in place, returns that key, and the number of keys does not
increase. -/
theorem c9_amended_truthy_id_replaces (g : String) (db : DB) (doc : Doc)
    (v : Value) (hid : getField doc "_id" = some v) (htr : jsTruthy v = true)
    (hval : validateDocument db.schema doc = true)
    (hmem : valueToKeyString v ∈ db.data.map (·.1)) :
    ∃ db', insert g db doc = .ok (db', valueToKeyString v)
      ∧ db'.data.length = db.data.length
      ∧ lookupData db'.data (valueToKeyString v) = some doc := by
  have hkey : insertKeyOf g doc = valueToKeyString v := by
    simp [insertKeyOf, hid, htr]
  refine ⟨⟨setKey db.data (valueToKeyString v) doc,
      insertIndexes db.indexes doc (valueToKeyString v), db.schema⟩, ?_, ?_, ?_⟩
  · rw [insert, hval]
    simp only [Bool.not_true]
    rw [if_neg (by simp), hkey]
  · exact setKey_length_of_mem doc hmem
  · exact lookup_setKey_self db.data (valueToKeyString v) doc

/-- Witness for C9's amended statement: re-inserting a document with
`_id: "1"` into `dbCat` replaces the stored document under "1". -/
theorem c9_witness :
    ∃ db', insert "g" dbCat [("_id", .vStr "1"), ("category", .vStr "Z")]
        = .ok (db', valueToKeyString (.vStr "1"))
      ∧ db'.data.length = dbCat.data.length
      ∧ lookupData db'.data (valueToKeyString (.vStr "1"))
          = some [("_id", .vStr "1"), ("category", .vStr "Z")] :=
  c9_amended_truthy_id_replaces "g" dbCat
    [("_id", .vStr "1"), ("category", .vStr "Z")] (.vStr "1")
    (by rfl) (by rfl) (by rfl) (by simp [dbCat, valueToKeyString])

/-- C10: for a document whose `_id` is absent or falsy (empty string, 0,
false, null), `insert` ignores the supplied `_id` and stores the document
under the freshly generated random key `g`; the stored document is the
document exactly as passed, so the generated key is not written into any
of its fields. -/
theorem c10_falsy_id_generated_key (g : String) (db : DB) (doc : Doc)
    (hfalsy : jsTruthyOpt (getField doc "_id") = false)
    (hval : validateDocument db.schema doc = true) :
    ∃ db', insert g db doc = .ok (db', g)
      ∧ lookupData db'.data g = some doc := by
  have hkey : insertKeyOf g doc = g := by
    cases hg : getField doc "_id"
    · simp [insertKeyOf, hg]
    · rename_i v
      rw [hg] at hfalsy
      have hv : jsTruthy v = false := hfalsy
      simp [insertKeyOf, hg, hv]
  refine ⟨⟨setKey db.data g doc, insertIndexes db.indexes doc g, db.schema⟩,
    ?_, ?_⟩
  · rw [insert, hval]
    simp only [Bool.not_true]
    rw [if_neg (by simp), hkey]
  · exact lookup_setKey_self db.data g doc

/-- Witness for C10: a document with the falsy `_id: ""` lands under the
generated key "r", stored exactly as passed. -/
theorem c10_witness :
    ∃ db', insert "r" (⟨[], [], []⟩ : DB) [("_id", .vStr ""), ("m", .vNum 2)]
        = .ok (db', "r")
      ∧ lookupData db'.data "r" = some [("_id", .vStr ""), ("m", .vNum 2)] :=
  c10_falsy_id_generated_key "r" ⟨[], [], []⟩
    [("_id", .vStr ""), ("m", .vNum 2)] (by rfl) (by rfl)

end JsonFlexDB
